import Mathlib

/-!
Verification of the news fetch/upsert/list service (`sync_api.py` and
`async_api.py`).

The two source files each expose two endpoints over a MongoDB collection of
article documents:

* `POST /fetch-news` (`fetch_and_store_news`): performs an HTTP GET against the
  news API; on a non-200 status it returns `{"error": ...}` without touching the
  store; otherwise it takes `data.get("articles", [])`, normalizes each raw
  article into a fixed-shape document (`source` from the nested
  `article["source"]["name"]`, every other field via `article.get(...)`, hence
  `null` when missing), and issues
  `collection.update_one({"url": doc["url"]}, {"$set": doc}, upsert=True)`
  for each document in order, finally returning
  `{"message": f"{len(articles)} news articles fetched and stored."}`.
* `GET /news` (`get_news`): reads every stored document, converts its `_id`
  (an ObjectId) to a string, and returns the list.

The embedding below models the MongoDB collection as a list of stored
documents, each carrying an opaque numeric object id; `update_one` with an
equality filter on `url`, a `$set` of the full document shape and `upsert=True`
updates the first stored document whose `url` matches (replacing every field of
the document shape, keeping the object id) or, when no document matches,
inserts a new document with a fresh object id.  The `$set` document always
contains the full field shape, so a match replaces all fields.  MongoDB's
`UpdateResult` distinguishes an upserted insert (`upserted_id` set), a modify
(`modified_count = 1`) and a no-op match (`matched_count = 1`,
`modified_count = 0`); this tri-state is the `UpdateOutcome` below.
-/

/-- A raw article as delivered inside the `articles` list of the news API JSON
body: `article["source"]["name"]` is accessed unconditionally, every other
field is read with `article.get(...)` and may be absent (`none`). -/
structure RawArticle where
  source_name : String
  author : Option String
  title : Option String
  description : Option String
  url : Option String
  urlToImage : Option String
  publishedAt : Option String
  content : Option String
deriving DecidableEq, Repr

/-- The fixed-shape document built in the loop body of `fetch_and_store_news`
(the `doc = { ... }` dictionary). -/
structure Doc where
  source : String
  author : Option String
  title : Option String
  description : Option String
  url : Option String
  urlToImage : Option String
  publishedAt : Option String
  content : Option String
deriving DecidableEq, Repr

/-- The normalization performed in the loop body: flatten the nested source
name and copy every other field (missing optional fields become `none`). -/
def normalize_article (article : RawArticle) : Doc :=
  { source := article.source_name
    author := article.author
    title := article.title
    description := article.description
    url := article.url
    urlToImage := article.urlToImage
    publishedAt := article.publishedAt
    content := article.content }

/-- A document as stored in the `articles` collection: the document fields
plus the MongoDB-generated `_id` (an ObjectId, modelled as an opaque `Nat`). -/
structure StoredDoc where
  oid : Nat
  doc : Doc
deriving DecidableEq, Repr

/-- The `articles` collection together with the ObjectId generator state:
`next_id` supplies the fresh `_id` used when an upsert inserts. -/
structure Store where
  docs : List StoredDoc
  next_id : Nat
deriving DecidableEq, Repr

/-- MongoDB `UpdateResult` for `update_one(..., upsert=True)`: an insert
happened (`upserted_id` set), an existing document was modified
(`modified_count = 1`), or an existing document matched but was left
unchanged because the `$set` fields were already identical
(`matched_count = 1`, `modified_count = 0`). -/
inductive UpdateOutcome where
  | created
  | modified
  | unchanged
deriving DecidableEq, Repr

/-- `collection.update_one({"url": d.url}, {"$set": d}, upsert=True)` on the
raw document list: update the first stored document whose `url` equals
`d.url`, replacing all its fields (the `$set` document carries the full
shape) while keeping its `_id`; insert `d` with the fresh `_id` when no
document matches. -/
def updateOneDocs (docs : List StoredDoc) (d : Doc) (fresh : Nat) :
    List StoredDoc × UpdateOutcome × Nat :=
  match docs with
  | [] => ([{ oid := fresh, doc := d }], UpdateOutcome.created, fresh + 1)
  | r :: rs =>
    if r.doc.url = d.url then
      ({ oid := r.oid, doc := d } :: rs,
       (if r.doc = d then UpdateOutcome.unchanged else UpdateOutcome.modified),
       fresh)
    else
      (r :: (updateOneDocs rs d fresh).1,
       (updateOneDocs rs d fresh).2.1,
       (updateOneDocs rs d fresh).2.2)

/-- `collection.update_one` lifted to the store (threading the ObjectId
generator). -/
def update_one (s : Store) (d : Doc) : Store × UpdateOutcome :=
  ({ docs := (updateOneDocs s.docs d s.next_id).1
     next_id := (updateOneDocs s.docs d s.next_id).2.2 },
   (updateOneDocs s.docs d s.next_id).2.1)

/-- An HTTP response from the news API: the status code and the parsed JSON
body's `articles` list (`none` when the body has no `articles` key;
`data.get("articles", [])` then yields `[]`). -/
structure HttpResponse where
  status_code : Nat
  articles : Option (List RawArticle)
deriving Repr

/-- A JSON payload returned by the endpoints: either `{"error": ...}` or
`{"message": ...}`. -/
inductive Payload where
  | error (s : String)
  | message (s : String)
deriving DecidableEq, Repr

/-- The ingestion loop of `fetch_and_store_news`: normalize and upsert each
article, one at a time, in list order. -/
def storeBatch (s : Store) (articles : List RawArticle) : Store :=
  articles.foldl (fun st article => (update_one st (normalize_article article)).1) s

/-- A listed article as returned by `get_news`: the stored document with its
`_id` converted to a string (`a["_id"] = str(a["_id"])`). -/
structure OutDoc where
  id_str : String
  doc : Doc
deriving DecidableEq, Repr

namespace SyncApi

/-- `fetch_and_store_news` of `sync_api.py`: on a non-200 response return the
error payload and leave the store alone; otherwise upsert every article of
`data.get("articles", [])` in order and report the processed count. -/
def fetch_and_store_news (response : HttpResponse) (s : Store) :
    Payload × Store :=
  if response.status_code ≠ 200 then
    (Payload.error "Failed to fetch news from NewsAPI", s)
  else
    let articles := response.articles.getD []
    (Payload.message
      (toString articles.length ++ " news articles fetched and stored."),
     storeBatch s articles)

/-- `get_news` of `sync_api.py`: `list(collection.find())`, then replace each
`_id` by its string form.  `find()` issues no write, so the store component is
returned unchanged. -/
def get_news (s : Store) : List OutDoc × Store :=
  (s.docs.map (fun a => { id_str := Nat.repr a.oid, doc := a.doc }), s)

end SyncApi

namespace AsyncApi

/-- `fetch_and_store_news` of `async_api.py`: identical control flow to the
synchronous variant, with the fetch and each `update_one` awaited. -/
def fetch_and_store_news (response : HttpResponse) (s : Store) :
    Payload × Store :=
  if response.status_code ≠ 200 then
    (Payload.error "Failed to fetch news from NewsAPI", s)
  else
    let articles := response.articles.getD []
    (Payload.message
      (toString articles.length ++ " news articles fetched and stored."),
     storeBatch s articles)

/-- `get_news` of `async_api.py`: start from `articles = []` and append each
document (with its `_id` stringified) while iterating the cursor. -/
def get_news (s : Store) : List OutDoc × Store :=
  (s.docs.foldl
    (fun articles a => articles ++ [{ id_str := Nat.repr a.oid, doc := a.doc }])
    [], s)

end AsyncApi

/-- Modelled from the spec: the `/add-news` endpoint (the "accept-via-POST"
variants of the service), whose source file is not among the provided ones.
Per the spec it applies the single-record upsert synchronization to one
normalized record and surfaces the upsert's result as a user-facing message
string only: `"Article added/updated."` when a record was created or
modified, a `"No changes made."` message when the stored fields were already
identical. -/
def add_news (s : Store) (d : Doc) : Payload × Store :=
  (match (update_one s d).2 with
   | UpdateOutcome.unchanged => Payload.message "No changes made."
   | UpdateOutcome.created => Payload.message "Article added/updated."
   | UpdateOutcome.modified => Payload.message "Article added/updated.",
   (update_one s d).1)

/-- The multiset key view of the collection: the `url` of every stored
document, in order. -/
def urls (l : List StoredDoc) : List (Option String) :=
  l.map (fun r => r.doc.url)

/-- The uniqueness invariant: no two stored documents share a `url`. -/
def urlsNodup (l : List StoredDoc) : Prop :=
  (urls l).Nodup

instance (l : List StoredDoc) : Decidable (urlsNodup l) := by
  unfold urlsNodup
  infer_instance

/-- The first stored document whose `url` is `u` (the document MongoDB's
equality filter on `url` selects). -/
def lookupUrl (l : List StoredDoc) (u : Option String) : Option StoredDoc :=
  l.find? (fun r => decide (r.doc.url = u))

/-- How many stored documents carry the `url` `u`. -/
def countUrl (l : List StoredDoc) (u : Option String) : Nat :=
  l.countP (fun r => decide (r.doc.url = u))

/-- The last article of a batch carrying the `url` `u`, if any: the record
whose fields survive when a `url` repeats within one batch. -/
def lastWithUrl (batch : List RawArticle) (u : Option String) :
    Option RawArticle :=
  match batch with
  | [] => none
  | a :: rest =>
    match lastWithUrl rest u with
    | some b => some b
    | none => if a.url = u then some a else none

/-- Sample documents and stores used by the concrete witnesses. -/
def docA : Doc :=
  { source := "BBC"
    author := some "alice"
    title := some "A"
    description := none
    url := some "https://a/1"
    urlToImage := none
    publishedAt := some "2024-01-01"
    content := none }

def docB : Doc :=
  { docA with title := some "B" }

def rawA : RawArticle :=
  { source_name := "BBC"
    author := some "alice"
    title := some "A"
    description := none
    url := some "https://a/1"
    urlToImage := none
    publishedAt := some "2024-01-01"
    content := none }

def rawB : RawArticle :=
  { rawA with title := some "B" }

def rawNoUrl : RawArticle :=
  { rawA with url := none, title := some "N" }

def rawNoUrl2 : RawArticle :=
  { rawA with url := none, title := some "M" }

def store0 : Store :=
  { docs := [], next_id := 0 }

def store1 : Store :=
  (update_one store0 docA).1

/-! ### Basic rewriting lemmas for the upsert -/

lemma updateOneDocs_nil (d : Doc) (f : Nat) :
    updateOneDocs [] d f =
      ([{ oid := f, doc := d }], UpdateOutcome.created, f + 1) := rfl

lemma updateOneDocs_cons_match (r : StoredDoc) (rs : List StoredDoc) (d : Doc)
    (f : Nat) (h : r.doc.url = d.url) :
    updateOneDocs (r :: rs) d f =
      ({ oid := r.oid, doc := d } :: rs,
       (if r.doc = d then UpdateOutcome.unchanged else UpdateOutcome.modified),
       f) := by
  simp [updateOneDocs, h]

lemma updateOneDocs_cons_nomatch (r : StoredDoc) (rs : List StoredDoc) (d : Doc)
    (f : Nat) (h : ¬r.doc.url = d.url) :
    updateOneDocs (r :: rs) d f =
      (r :: (updateOneDocs rs d f).1,
       (updateOneDocs rs d f).2.1,
       (updateOneDocs rs d f).2.2) := by
  simp [updateOneDocs, h]

lemma urls_nil : urls [] = [] := rfl

lemma urls_cons (r : StoredDoc) (rs : List StoredDoc) :
    urls (r :: rs) = r.doc.url :: urls rs := rfl

lemma length_urls (l : List StoredDoc) : (urls l).length = l.length :=
  List.length_map _ _

/-- The `url` column after an upsert: unchanged when the key was present,
extended by the new key when it was absent. -/
lemma urls_updateOneDocs (l : List StoredDoc) (d : Doc) (f : Nat) :
    urls (updateOneDocs l d f).1 =
      if d.url ∈ urls l then urls l else urls l ++ [d.url] := by
  induction l with
  | nil => simp [updateOneDocs_nil, urls]
  | cons r rs ih =>
    by_cases h : r.doc.url = d.url
    · rw [updateOneDocs_cons_match r rs d f h]
      simp [urls_cons, h, List.mem_cons]
    · rw [updateOneDocs_cons_nomatch r rs d f h]
      have hne : ¬d.url = r.doc.url := fun hh => h hh.symm
      by_cases hm : d.url ∈ urls rs
      · simp [urls_cons, ih, hm, hne, List.mem_cons]
      · simp [urls_cons, ih, hm, hne, List.mem_cons]

lemma mem_urls_updateOneDocs (l : List StoredDoc) (d : Doc) (f : Nat)
    (u : Option String) :
    u ∈ urls (updateOneDocs l d f).1 ↔ u ∈ urls l ∨ u = d.url := by
  rw [urls_updateOneDocs]
  split_ifs with hm
  · constructor
    · exact Or.inl
    · rintro (h | rfl)
      · exact h
      · exact hm
  · simp [List.mem_append]

lemma length_updateOneDocs_mem (l : List StoredDoc) (d : Doc) (f : Nat)
    (h : d.url ∈ urls l) :
    (updateOneDocs l d f).1.length = l.length := by
  have h1 := congrArg List.length (urls_updateOneDocs l d f)
  rw [if_pos h, length_urls, length_urls] at h1
  exact h1

lemma length_updateOneDocs_fresh (l : List StoredDoc) (d : Doc) (f : Nat)
    (h : d.url ∉ urls l) :
    (updateOneDocs l d f).1.length = l.length + 1 := by
  have h1 := congrArg List.length (urls_updateOneDocs l d f)
  rw [if_neg h, length_urls, List.length_append, length_urls] at h1
  exact h1

lemma nodup_updateOneDocs (l : List StoredDoc) (d : Doc) (f : Nat)
    (h : urlsNodup l) : urlsNodup (updateOneDocs l d f).1 := by
  unfold urlsNodup at h ⊢
  rw [urls_updateOneDocs]
  split_ifs with hm
  · exact h
  · rw [List.nodup_append]
    exact ⟨h, List.nodup_singleton _, by simpa using hm⟩

/-! ### Lookup lemmas -/

lemma lookupUrl_nil (u : Option String) : lookupUrl [] u = none := rfl

lemma lookupUrl_cons_match (r : StoredDoc) (rs : List StoredDoc)
    (u : Option String) (h : r.doc.url = u) :
    lookupUrl (r :: rs) u = some r := by
  unfold lookupUrl
  rw [List.find?_cons_of_pos]
  simp [h]

lemma lookupUrl_cons_nomatch (r : StoredDoc) (rs : List StoredDoc)
    (u : Option String) (h : ¬r.doc.url = u) :
    lookupUrl (r :: rs) u = lookupUrl rs u := by
  unfold lookupUrl
  rw [List.find?_cons_of_neg]
  simp [h]

/-- After an upsert of `d`, the document the filter on `d.url` selects carries
exactly the fields of `d`. -/
lemma lookupUrl_updateOneDocs_self (l : List StoredDoc) (d : Doc) (f : Nat) :
    (lookupUrl (updateOneDocs l d f).1 d.url).map StoredDoc.doc = some d := by
  induction l with
  | nil =>
    rw [updateOneDocs_nil]
    rw [lookupUrl_cons_match _ _ _ rfl]
    rfl
  | cons r rs ih =>
    by_cases h : r.doc.url = d.url
    · rw [updateOneDocs_cons_match r rs d f h]
      rw [lookupUrl_cons_match _ _ _ rfl]
      rfl
    · rw [updateOneDocs_cons_nomatch r rs d f h]
      rw [lookupUrl_cons_nomatch r _ _ h]
      exact ih

/-- An upsert of `d` does not disturb what the filter on any other `url`
selects. -/
lemma lookupUrl_updateOneDocs_other (l : List StoredDoc) (d : Doc) (f : Nat)
    (u : Option String) (h : ¬u = d.url) :
    lookupUrl (updateOneDocs l d f).1 u = lookupUrl l u := by
  have h' : ¬d.url = u := fun hh => h hh.symm
  induction l with
  | nil =>
    rw [updateOneDocs_nil]
    rw [lookupUrl_cons_nomatch _ _ _ h', lookupUrl_nil]
  | cons r rs ih =>
    by_cases hr : r.doc.url = d.url
    · rw [updateOneDocs_cons_match r rs d f hr]
      have hru : ¬r.doc.url = u := fun hh => h' (hr ▸ hh)
      rw [lookupUrl_cons_nomatch _ _ _ h', lookupUrl_cons_nomatch _ _ _ hru]
    · rw [updateOneDocs_cons_nomatch r rs d f hr]
      by_cases hru : r.doc.url = u
      · rw [lookupUrl_cons_match _ _ _ hru, lookupUrl_cons_match _ _ _ hru]
      · rw [lookupUrl_cons_nomatch _ _ _ hru, lookupUrl_cons_nomatch _ _ _ hru]
        exact ih

/-! ### Counting lemmas -/

lemma countUrl_nil (u : Option String) : countUrl [] u = 0 := rfl

lemma countUrl_eq_zero (l : List StoredDoc) (u : Option String)
    (h : u ∉ urls l) : countUrl l u = 0 := by
  unfold countUrl
  rw [List.countP_eq_zero]
  intro r hr
  simp only [decide_eq_true_eq]
  intro hh
  exact h (List.mem_map.mpr ⟨r, hr, hh⟩)

lemma countUrl_eq_one (l : List StoredDoc) (u : Option String)
    (hnd : urlsNodup l) (hm : u ∈ urls l) : countUrl l u = 1 := by
  induction l with
  | nil => simp [urls_nil] at hm
  | cons r rs ih =>
    rw [urls_cons] at hm
    unfold urlsNodup at hnd
    rw [urls_cons] at hnd
    have hnd' := List.nodup_cons.mp hnd
    unfold countUrl
    rw [List.countP_cons]
    rcases List.mem_cons.mp hm with rfl | hm'
    · have hz : countUrl rs r.doc.url = 0 := countUrl_eq_zero rs _ hnd'.1
      unfold countUrl at hz
      simp [hz]
    · have hru : ¬r.doc.url = u := fun hh => hnd'.1 (hh ▸ hm')
      have h1 := ih hnd'.2 hm'
      unfold countUrl at h1
      simp [h1, hru]

/-! ### Outcome classification -/

lemma outcome_created_iff (l : List StoredDoc) (d : Doc) (f : Nat) :
    (updateOneDocs l d f).2.1 = UpdateOutcome.created ↔
      ∀ r ∈ l, ¬r.doc.url = d.url := by
  induction l with
  | nil => simp [updateOneDocs_nil]
  | cons r rs ih =>
    by_cases h : r.doc.url = d.url
    · rw [updateOneDocs_cons_match r rs d f h]
      constructor
      · intro hc
        split_ifs at hc
      · intro hall
        exact absurd h (hall r (List.mem_cons_self r rs))
    · rw [updateOneDocs_cons_nomatch r rs d f h]
      simp only [List.forall_mem_cons, h, not_false_iff, true_and]
      exact ih

lemma outcome_unchanged_iff (l : List StoredDoc) (d : Doc) (f : Nat) :
    (updateOneDocs l d f).2.1 = UpdateOutcome.unchanged ↔
      ∃ r, lookupUrl l d.url = some r ∧ r.doc = d := by
  induction l with
  | nil => simp [updateOneDocs_nil, lookupUrl_nil]
  | cons r rs ih =>
    by_cases h : r.doc.url = d.url
    · rw [updateOneDocs_cons_match r rs d f h, lookupUrl_cons_match r rs _ h]
      by_cases hd : r.doc = d <;> simp [hd]
    · rw [updateOneDocs_cons_nomatch r rs d f h, lookupUrl_cons_nomatch r rs _ h]
      exact ih

lemma outcome_modified_iff (l : List StoredDoc) (d : Doc) (f : Nat) :
    (updateOneDocs l d f).2.1 = UpdateOutcome.modified ↔
      ∃ r, lookupUrl l d.url = some r ∧ ¬r.doc = d := by
  induction l with
  | nil => simp [updateOneDocs_nil, lookupUrl_nil]
  | cons r rs ih =>
    by_cases h : r.doc.url = d.url
    · rw [updateOneDocs_cons_match r rs d f h, lookupUrl_cons_match r rs _ h]
      by_cases hd : r.doc = d <;> simp [hd]
    · rw [updateOneDocs_cons_nomatch r rs d f h, lookupUrl_cons_nomatch r rs _ h]
      exact ih

/-! ### Store-level lemmas -/

lemma update_one_docs (s : Store) (d : Doc) :
    (update_one s d).1.docs = (updateOneDocs s.docs d s.next_id).1 := rfl

lemma update_one_outcome (s : Store) (d : Doc) :
    (update_one s d).2 = (updateOneDocs s.docs d s.next_id).2.1 := rfl

/-- Upserting the very same document twice in a row: the second upsert matches
the record the first one wrote and finds its fields already identical. -/
lemma update_one_twice_unchanged (s : Store) (d : Doc) :
    (update_one (update_one s d).1 d).2 = UpdateOutcome.unchanged := by
  rw [update_one_outcome, outcome_unchanged_iff]
  have h := lookupUrl_updateOneDocs_self s.docs d s.next_id
  rw [update_one_docs]
  rcases Option.map_eq_some'.mp h with ⟨r, hr, hd⟩
  exact ⟨r, hr, hd⟩

/-! ### Batch loop lemmas -/

lemma storeBatch_nil (s : Store) : storeBatch s [] = s := rfl

lemma storeBatch_cons (s : Store) (a : RawArticle) (rest : List RawArticle) :
    storeBatch s (a :: rest) =
      storeBatch (update_one s (normalize_article a)).1 rest := rfl

lemma nodup_storeBatch (s : Store) (batch : List RawArticle)
    (h : urlsNodup s.docs) : urlsNodup (storeBatch s batch).docs := by
  induction batch generalizing s with
  | nil => exact h
  | cons a rest ih =>
    rw [storeBatch_cons]
    exact ih _ (by rw [update_one_docs]; exact nodup_updateOneDocs _ _ _ h)

lemma mem_urls_storeBatch (s : Store) (batch : List RawArticle)
    (u : Option String) :
    u ∈ urls (storeBatch s batch).docs ↔
      u ∈ urls s.docs ∨ u ∈ batch.map RawArticle.url := by
  induction batch generalizing s with
  | nil => simp [storeBatch_nil]
  | cons a rest ih =>
    rw [storeBatch_cons, ih]
    rw [update_one_docs, mem_urls_updateOneDocs]
    have hu : (normalize_article a).url = a.url := rfl
    rw [hu]
    simp [List.mem_cons, or_assoc]

lemma lookupUrl_storeBatch_untouched (s : Store) (batch : List RawArticle)
    (u : Option String) (h : ∀ a ∈ batch, ¬a.url = u) :
    lookupUrl (storeBatch s batch).docs u = lookupUrl s.docs u := by
  induction batch generalizing s with
  | nil => rw [storeBatch_nil]
  | cons a rest ih =>
    rw [storeBatch_cons]
    rw [ih _ (fun x hx => h x (List.mem_cons_of_mem a hx))]
    rw [update_one_docs]
    exact lookupUrl_updateOneDocs_other _ _ _ _
      (fun hh => h a (List.mem_cons_self a rest) (hh ▸ rfl))

/-! ### Last-occurrence lemmas -/

lemma lastWithUrl_nil (u : Option String) : lastWithUrl [] u = none := rfl

lemma lastWithUrl_eq_none_iff (batch : List RawArticle) (u : Option String) :
    lastWithUrl batch u = none ↔ ∀ a ∈ batch, ¬a.url = u := by
  induction batch with
  | nil => simp [lastWithUrl_nil]
  | cons a rest ih =>
    cases hrest : lastWithUrl rest u with
    | some b =>
      have hb : ¬∀ x ∈ rest, ¬x.url = u := by
        intro hall
        rw [ih.mpr hall] at hrest
        cases hrest
      simp only [lastWithUrl, hrest, List.forall_mem_cons]
      constructor
      · intro hc; cases hc
      · intro hall; exact absurd hall.2 hb
    | none =>
      simp only [lastWithUrl, hrest, List.forall_mem_cons]
      by_cases ha : a.url = u
      · simp [ha]
      · rw [if_neg ha]
        constructor
        · intro _; exact ⟨ha, ih.mp hrest⟩
        · intro _; rfl

lemma lastWithUrl_isSome (batch : List RawArticle) (u : Option String)
    (h : u ∈ batch.map RawArticle.url) :
    ∃ a, lastWithUrl batch u = some a := by
  cases hl : lastWithUrl batch u with
  | some a => exact ⟨a, rfl⟩
  | none =>
    rcases List.mem_map.mp h with ⟨a, ha, hau⟩
    exact absurd hau ((lastWithUrl_eq_none_iff batch u).mp hl a ha)

lemma lastWithUrl_url (batch : List RawArticle) (u : Option String)
    (a : RawArticle) (h : lastWithUrl batch u = some a) : a.url = u := by
  induction batch with
  | nil => cases h
  | cons b rest ih =>
    cases hrest : lastWithUrl rest u with
    | some c =>
      rw [lastWithUrl, hrest] at h
      cases h
      exact ih hrest
    | none =>
      rw [lastWithUrl, hrest] at h
      by_cases hb : b.url = u
      · rw [if_pos hb] at h
        cases h
        exact hb
      · rw [if_neg hb] at h
        cases h

/-- Within one batch the last occurrence of a `url` wins: after the loop the
filter on that `url` selects a document carrying exactly the fields of the
last batch record with that `url`. -/
lemma lookupUrl_storeBatch_last (s : Store) (batch : List RawArticle)
    (u : Option String) (a : RawArticle) (hl : lastWithUrl batch u = some a) :
    (lookupUrl (storeBatch s batch).docs u).map StoredDoc.doc =
      some (normalize_article a) := by
  induction batch generalizing s with
  | nil => cases hl
  | cons b rest ih =>
    rw [storeBatch_cons]
    cases hrest : lastWithUrl rest u with
    | some c =>
      rw [lastWithUrl, hrest] at hl
      cases hl
      exact ih _ hrest
    | none =>
      rw [lastWithUrl, hrest] at hl
      by_cases hb : b.url = u
      · rw [if_pos hb] at hl
        cases hl
        rw [lookupUrl_storeBatch_untouched _ _ _
          ((lastWithUrl_eq_none_iff rest u).mp hrest)]
        rw [update_one_docs]
        have : (normalize_article a).url = u := hb
        rw [← this]
        exact lookupUrl_updateOneDocs_self _ _ _
      · rw [if_neg hb] at hl
        cases hl

/-! ### Listing lemmas -/

lemma foldl_append_eq_map (l : List StoredDoc) (g : StoredDoc → OutDoc) :
    ∀ acc : List OutDoc,
      l.foldl (fun articles a => articles ++ [g a]) acc = acc ++ l.map g := by
  induction l with
  | nil => intro acc; simp
  | cons r rs ih =>
    intro acc
    rw [List.foldl_cons, ih (acc ++ [g r])]
    simp

/-- `Nat.toDigitsCore` only ever prepends digits to its accumulator. -/
lemma toDigitsCore_length_le (b : Nat) :
    ∀ (fuel n : Nat) (ds : List Char),
      ds.length ≤ (Nat.toDigitsCore b fuel n ds).length := by
  intro fuel
  induction fuel with
  | zero => intro n ds; exact Nat.le_refl _
  | succ f ih =>
    intro n ds
    rw [Nat.toDigitsCore]
    split
    · exact Nat.le_succ_of_le (Nat.le_refl _)
    · exact Nat.le_trans (Nat.le_succ_of_le (Nat.le_refl _))
        (ih _ (Nat.digitChar (n % b) :: ds))

/-- With nonzero fuel, `Nat.toDigitsCore` emits at least one digit. -/
lemma toDigitsCore_length_pos (b f n : Nat) (ds : List Char) :
    ds.length + 1 ≤ (Nat.toDigitsCore b (f + 1) n ds).length := by
  rw [Nat.toDigitsCore]
  split
  · exact Nat.le_refl _
  · exact toDigitsCore_length_le b f (n / b) (Nat.digitChar (n % b) :: ds)

/-- The decimal rendering of a `Nat` (the model of `str(ObjectId)`) is never
the empty string. -/
lemma Nat.repr_ne_empty (n : Nat) : Nat.repr n ≠ "" := by
  intro h
  have hlen : (Nat.repr n).length = 0 := by rw [h]; rfl
  have hpos : 1 ≤ (Nat.repr n).length := by
    show 1 ≤ (List.asString (Nat.toDigits 10 n)).length
    have : (List.asString (Nat.toDigits 10 n)).length =
        (Nat.toDigits 10 n).length := rfl
    rw [this, Nat.toDigits]
    exact toDigitsCore_length_pos 10 n n []
  omega

/-! ## Claims -/

/-- C1: the store never holds two records with the same `url`.  Every upsert
preserves the uniqueness invariant; a write whose `url` matches an existing
record replaces it, leaving the record count unchanged; and a write with a
fresh `url` inserts exactly one new record. -/
theorem C1 (s : Store) (d : Doc) (hnd : urlsNodup s.docs) :
    urlsNodup (update_one s d).1.docs ∧
    (d.url ∈ urls s.docs →
      (update_one s d).1.docs.length = s.docs.length) ∧
    (d.url ∉ urls s.docs →
      (update_one s d).1.docs.length = s.docs.length + 1) := by
  refine ⟨?_, ?_, ?_⟩
  · rw [update_one_docs]
    exact nodup_updateOneDocs _ _ _ hnd
  · intro h
    rw [update_one_docs]
    exact length_updateOneDocs_mem _ _ _ h
  · intro h
    rw [update_one_docs]
    exact length_updateOneDocs_fresh _ _ _ h

theorem C1_witness :
    urlsNodup store1.docs ∧
    (urlsNodup (update_one store1 docB).1.docs ∧
     (docB.url ∈ urls store1.docs →
       (update_one store1 docB).1.docs.length = store1.docs.length) ∧
     (docB.url ∉ urls store1.docs →
       (update_one store1 docB).1.docs.length = store1.docs.length + 1)) :=
  ⟨by decide, C1 store1 docB (by decide)⟩

/-- C2: the single-record upsert synchronization reports which of three
outcomes occurred — a record was created (its `url` was fresh), an existing
record was modified (its `url` matched and the fields differed), or nothing
changed (the matched record's fields were already identical) — and a second
synchronization of the same record with identical content makes the
caller-visible result of the (spec-modelled) `/add-news` endpoint report
that no changes were made. -/
theorem C2 (s : Store) (d : Doc) :
    ((update_one s d).2 = UpdateOutcome.created ↔
      ∀ r ∈ s.docs, ¬r.doc.url = d.url) ∧
    ((update_one s d).2 = UpdateOutcome.unchanged ↔
      ∃ r, lookupUrl s.docs d.url = some r ∧ r.doc = d) ∧
    ((update_one s d).2 = UpdateOutcome.modified ↔
      ∃ r, lookupUrl s.docs d.url = some r ∧ ¬r.doc = d) ∧
    (add_news (add_news s d).2 d).1 = Payload.message "No changes made." := by
  refine ⟨?_, ?_, ?_, ?_⟩
  · rw [update_one_outcome]
    exact outcome_created_iff _ _ _
  · rw [update_one_outcome]
    exact outcome_unchanged_iff _ _ _
  · rw [update_one_outcome]
    exact outcome_modified_iff _ _ _
  · have h2 : (add_news s d).2 = (update_one s d).1 := rfl
    rw [h2]
    unfold add_news
    rw [update_one_twice_unchanged]

/-- C3: when the remote source answers with a non-success status, both
variants of the bulk ingestion return the error payload and leave the set of
stored records exactly as it was. -/
theorem C3 (response : HttpResponse) (s : Store)
    (h : response.status_code ≠ 200) :
    SyncApi.fetch_and_store_news response s =
      (Payload.error "Failed to fetch news from NewsAPI", s) ∧
    AsyncApi.fetch_and_store_news response s =
      (Payload.error "Failed to fetch news from NewsAPI", s) := by
  refine ⟨?_, ?_⟩
  · unfold SyncApi.fetch_and_store_news
    rw [if_pos h]
  · unfold AsyncApi.fetch_and_store_news
    rw [if_pos h]

theorem C3_witness :
    (HttpResponse.mk 500 (some [rawA])).status_code ≠ 200 ∧
    (SyncApi.fetch_and_store_news (HttpResponse.mk 500 (some [rawA])) store1 =
       (Payload.error "Failed to fetch news from NewsAPI", store1) ∧
     AsyncApi.fetch_and_store_news (HttpResponse.mk 500 (some [rawA])) store1 =
       (Payload.error "Failed to fetch news from NewsAPI", store1)) :=
  ⟨by decide, C3 (HttpResponse.mk 500 (some [rawA])) store1 (by decide)⟩

/-- C4: an upsert whose `url` matches a stored record performs a full field
replacement, not a merge: afterwards the record selected by that `url`
consists exactly of the incoming document's fields, so no field value of the
prior record survives. -/
theorem C4 (s : Store) (d : Doc) (r : StoredDoc) (hr : r ∈ s.docs)
    (hu : r.doc.url = d.url) :
    (lookupUrl (update_one s d).1.docs d.url).map StoredDoc.doc = some d := by
  rw [update_one_docs]
  exact lookupUrl_updateOneDocs_self _ _ _

theorem C4_witness :
    StoredDoc.mk 0 docA ∈ store1.docs ∧
    (StoredDoc.mk 0 docA).doc.url = docB.url ∧
    (lookupUrl (update_one store1 docB).1.docs docB.url).map StoredDoc.doc =
      some docB :=
  ⟨by decide, by decide,
   C4 store1 docB (StoredDoc.mk 0 docA) (by decide) (by decide)⟩

/-- C5: the blocking and non-blocking variants are semantically identical:
for every remote response and initial store the two `fetch_and_store_news`
functions produce the same payload and the same final store, and the two
`get_news` functions produce the same output. -/
theorem C5 :
    (∀ (response : HttpResponse) (s : Store),
      SyncApi.fetch_and_store_news response s =
        AsyncApi.fetch_and_store_news response s) ∧
    (∀ s : Store, SyncApi.get_news s = AsyncApi.get_news s) := by
  constructor
  · intro response s
    rfl
  · intro s
    unfold SyncApi.get_news AsyncApi.get_news
    rw [foldl_append_eq_map s.docs
      (fun a => { id_str := Nat.repr a.oid, doc := a.doc }) []]
    simp

/-- C6: the loop upserts the normalized records one at a time in batch order,
so the last occurrence of a repeated `url` wins: afterwards exactly one
stored record carries that `url`, and its fields equal the normalization of
the last batch record with that `url`. -/
theorem C6 (s : Store) (batch : List RawArticle) (u : Option String)
    (hnd : urlsNodup s.docs) (hm : u ∈ batch.map RawArticle.url) :
    countUrl (storeBatch s batch).docs u = 1 ∧
    (lookupUrl (storeBatch s batch).docs u).map StoredDoc.doc =
      (lastWithUrl batch u).map normalize_article := by
  obtain ⟨a, ha⟩ := lastWithUrl_isSome batch u hm
  constructor
  · exact countUrl_eq_one _ _ (nodup_storeBatch s batch hnd)
      ((mem_urls_storeBatch s batch u).mpr (Or.inr hm))
  · rw [ha, Option.map_some']
    exact lookupUrl_storeBatch_last s batch u a ha

theorem C6_witness :
    urlsNodup store0.docs ∧
    some "https://a/1" ∈ [rawA, rawB].map RawArticle.url ∧
    (countUrl (storeBatch store0 [rawA, rawB]).docs (some "https://a/1") = 1 ∧
     (lookupUrl (storeBatch store0 [rawA, rawB]).docs
        (some "https://a/1")).map StoredDoc.doc =
       (lastWithUrl [rawA, rawB] (some "https://a/1")).map normalize_article) :=
  ⟨by decide, by decide,
   C6 store0 [rawA, rawB] (some "https://a/1") (by decide) (by decide)⟩

/-- C7: normalization yields a flat record with every field of the data
model: `source` equals the nested source name of the input, and each optional
field is copied as-is, so a missing optional field is present as an explicit
`none` instead of being omitted. -/
theorem C7 (article : RawArticle) :
    (normalize_article article).source = article.source_name ∧
    (normalize_article article).author = article.author ∧
    (normalize_article article).title = article.title ∧
    (normalize_article article).description = article.description ∧
    (normalize_article article).url = article.url ∧
    (normalize_article article).urlToImage = article.urlToImage ∧
    (normalize_article article).publishedAt = article.publishedAt ∧
    (normalize_article article).content = article.content :=
  ⟨rfl, rfl, rfl, rfl, rfl, rfl, rfl, rfl⟩

/-- C8: listing a store of records with pairwise distinct `url` values
returns exactly as many records as are stored, each carrying its storage
identifier rendered as a non-empty string alongside the stored fields
unchanged, and the store itself is left unmodified — in both variants. -/
theorem C8 (s : Store) (hnd : urlsNodup s.docs) :
    (SyncApi.get_news s).1.length = s.docs.length ∧
    (AsyncApi.get_news s).1.length = s.docs.length ∧
    (∀ o ∈ (SyncApi.get_news s).1, o.id_str ≠ "") ∧
    (∀ o ∈ (AsyncApi.get_news s).1, o.id_str ≠ "") ∧
    (SyncApi.get_news s).1.map OutDoc.doc = s.docs.map StoredDoc.doc ∧
    (AsyncApi.get_news s).1.map OutDoc.doc = s.docs.map StoredDoc.doc ∧
    (SyncApi.get_news s).2 = s ∧
    (AsyncApi.get_news s).2 = s := by
  have hasync : (AsyncApi.get_news s).1 = (SyncApi.get_news s).1 := by
    unfold SyncApi.get_news AsyncApi.get_news
    rw [foldl_append_eq_map s.docs
      (fun a => { id_str := Nat.repr a.oid, doc := a.doc }) []]
    simp
  have hlen : (SyncApi.get_news s).1.length = s.docs.length := by
    unfold SyncApi.get_news
    exact List.length_map _ _
  have hid : ∀ o ∈ (SyncApi.get_news s).1, o.id_str ≠ "" := by
    intro o ho
    rcases List.mem_map.mp ho with ⟨r, _, rfl⟩
    exact Nat.repr_ne_empty r.oid
  have hdoc : (SyncApi.get_news s).1.map OutDoc.doc =
      s.docs.map StoredDoc.doc := by
    unfold SyncApi.get_news
    rw [List.map_map]
    rfl
  exact ⟨hlen, by rw [hasync]; exact hlen, hid,
    by rw [hasync]; exact hid, hdoc, by rw [hasync]; exact hdoc, rfl, rfl⟩

theorem C8_witness :
    urlsNodup store1.docs ∧
    ((SyncApi.get_news store1).1.length = store1.docs.length ∧
     (AsyncApi.get_news store1).1.length = store1.docs.length ∧
     (∀ o ∈ (SyncApi.get_news store1).1, o.id_str ≠ "") ∧
     (∀ o ∈ (AsyncApi.get_news store1).1, o.id_str ≠ "") ∧
     (SyncApi.get_news store1).1.map OutDoc.doc =
       store1.docs.map StoredDoc.doc ∧
     (AsyncApi.get_news store1).1.map OutDoc.doc =
       store1.docs.map StoredDoc.doc ∧
     (SyncApi.get_news store1).2 = store1 ∧
     (AsyncApi.get_news store1).2 = store1) :=
  ⟨by decide, C8 store1 (by decide)⟩

/-- C9: on a successful fetch both variants report, in the success message,
the count of raw records processed — the length of the fetched batch — and
not the count of records whose stored content changed. -/
theorem C9 (articles : List RawArticle) (s : Store) :
    (SyncApi.fetch_and_store_news (HttpResponse.mk 200 (some articles)) s).1 =
      Payload.message
        (toString articles.length ++ " news articles fetched and stored.") ∧
    (AsyncApi.fetch_and_store_news (HttpResponse.mk 200 (some articles)) s).1 =
      Payload.message
        (toString articles.length ++ " news articles fetched and stored.") := by
  constructor <;> rfl

/-- C10: a raw article without a `url` field is normalized with `url = none`
and upserted under the key `none`, never rejected: after ingesting a batch
containing url-less articles, exactly one stored record carries the `none`
url and its fields equal the normalization of the last url-less article of
the batch. -/
theorem C10 (s : Store) (batch : List RawArticle)
    (hnd : urlsNodup s.docs) (hm : none ∈ batch.map RawArticle.url) :
    (∀ article : RawArticle, article.url = none →
      (normalize_article article).url = none) ∧
    countUrl (storeBatch s batch).docs none = 1 ∧
    (lookupUrl (storeBatch s batch).docs none).map StoredDoc.doc =
      (lastWithUrl batch none).map normalize_article := by
  refine ⟨fun a ha => ha, ?_, ?_⟩
  · exact countUrl_eq_one _ _ (nodup_storeBatch s batch hnd)
      ((mem_urls_storeBatch s batch none).mpr (Or.inr hm))
  · obtain ⟨a, ha⟩ := lastWithUrl_isSome batch none hm
    rw [ha, Option.map_some']
    exact lookupUrl_storeBatch_last s batch none a ha

theorem C10_witness :
    urlsNodup store0.docs ∧
    none ∈ [rawNoUrl, rawNoUrl2].map RawArticle.url ∧
    ((∀ article : RawArticle, article.url = none →
        (normalize_article article).url = none) ∧
     countUrl (storeBatch store0 [rawNoUrl, rawNoUrl2]).docs none = 1 ∧
     (lookupUrl (storeBatch store0 [rawNoUrl, rawNoUrl2]).docs none).map
         StoredDoc.doc =
       (lastWithUrl [rawNoUrl, rawNoUrl2] none).map normalize_article) :=
  ⟨by decide, by decide,
   C10 store0 [rawNoUrl, rawNoUrl2] (by decide) (by decide)⟩
